import Mathlib

/-!
Verification development for the autonomous GitHub repository manager
(`autonomous-agent.py` / `workflow-engine.py`).

The Python sources are shallowly embedded below.  File-system, git and
hosting-CLI effects are modelled by explicit state records (`GitState`,
`MgrState`, `MonState`); issued write-mutating git commands (commit, push)
are recorded in a log together with the manager's `current_branch`
attribute at the moment of issue, so that the protected-branch invariants
can be stated over execution traces.
-/

namespace RepoManager

/-! ## String helpers mirroring the Python primitives used by the sources -/

/-- `pat` occurs as a contiguous substring of `s` (Python `pat in s`). -/
def containsChars (pat : List Char) : List Char → Bool
  | [] => pat.isEmpty
  | c :: rest => pat.isPrefixOf (c :: rest) || containsChars pat rest

/-- Python `pat in s` on strings. -/
def containsStr (pat s : String) : Bool :=
  containsChars pat.data s.data

/-- Python `str.lower()` (ASCII case folding, which is all the sources use). -/
def lowerStr (s : String) : String :=
  String.mk (s.data.map Char.toLower)

/-- Python `description.lower().replace(' ', '-')` from
`create_feature_branch`. -/
def slugify (s : String) : String :=
  String.mk (s.data.map (fun c => if c.toLower = ' ' then '-' else c.toLower))

/-! ## The change monitor (`autonomous-agent.py`, class `RepositoryMonitor`) -/

/-- One filesystem notification, as delivered by the watchdog observer. -/
structure Event where
  srcPath : String
  isDirectory : Bool
  deriving Repr, DecidableEq

/-- The ignore patterns hard-coded in `RepositoryMonitor._should_ignore_file`. -/
def ignorePatterns : List String :=
  [".git/", "__pycache__/", ".pyc", ".log", ".tmp",
   ".swp", ".DS_Store", "node_modules/", ".env"]

/-- `RepositoryMonitor._should_ignore_file`: any ignore pattern occurs in the
full path string. -/
def shouldIgnoreFile (path : String) : Bool :=
  ignorePatterns.any (fun pat => containsStr pat path)

/-- `RepositoryMonitor._categorize_file`, applied to the path relative to the
repository root: lower-case the path, then first-match-wins substring tests. -/
def categorizeFile (relPath : String) : String :=
  let pathStr := lowerStr relPath
  if ["readme", "doc", ".md", "license"].any (fun d => containsStr d pathStr) then
    "docs"
  else if ["config", ".yaml", ".yml", ".json", ".ini"].any (fun c => containsStr c pathStr) then
    "config"
  else if [".sh", ".py", "script"].any (fun sc => containsStr sc pathStr) then
    "feature"
  else
    "feature"

/-- `Path.relative_to(repo_path)` on string paths (the only use the monitor
makes of it). -/
def relTo (repo path : String) : String :=
  if (repo ++ "/").isPrefixOf path then
    path.drop (repo.length + 1)
  else
    path

/-- State of a `RepositoryMonitor` instance: the per-category pending sets
(`pending_changes`, in dict insertion order), the flush clock, the in-memory
path-to-hash mapping (`file_hashes`) and its persisted copy on disk
(`.file_hashes.json`, written by `_save_file_hashes`). -/
structure MonState where
  pending : List (String × List String)
  lastProcessTime : Nat
  processDelay : Nat
  fileHashes : List (String × String)
  savedHashes : List (String × String)
  deriving Repr, DecidableEq

/-- `RepositoryMonitor.__init__`: the four fixed categories, a 30-second
quiescence delay and the hash mapping loaded from disk. -/
def monInit (loaded : List (String × String)) : MonState :=
  { pending := [("feature", []), ("docs", []), ("config", []), ("fix", [])]
    lastProcessTime := 0
    processDelay := 30
    fileHashes := loaded
    savedHashes := loaded }

/-- Insert a path into one category's pending set (Python `set.add`:
duplicates collapse).  Categories other than the dict's keys are untouched;
`_categorize_file` only ever returns keys of the dict. -/
def addPending (pending : List (String × List String)) (cat path : String) :
    List (String × List String) :=
  pending.map (fun p =>
    if p.1 = cat then (p.1, if path ∈ p.2 then p.2 else p.2 ++ [path]) else p)

/-- Update the path-to-hash association (Python dict assignment). -/
def setHash (hashes : List (String × String)) (path h : String) :
    List (String × String) :=
  if (List.lookup path hashes).isSome then
    hashes.map (fun p => if p.1 = path then (p.1, h) else p)
  else
    hashes ++ [(path, h)]

/-- `RepositoryMonitor._get_file_hash`: hash of the file's content, or the
empty string when the path does not exist.  Content hashing (md5) is modelled
as the content itself; only equality of hashes is ever consumed. -/
def getFileHash (fs : List (String × String)) (path : String) : String :=
  (List.lookup path fs).getD ""

/-- `RepositoryMonitor.on_modified` (also reached from `on_created`):
drop directories and ignored paths; otherwise hash-dedupe, classify and
buffer the relative path.  `fs` is the current filesystem content. -/
def onModified (fs : List (String × String)) (repoPath : String)
    (ev : Event) (s : MonState) : MonState :=
  if ev.isDirectory then s
  else if shouldIgnoreFile ev.srcPath then s
  else
    let newHash := getFileHash fs ev.srcPath
    let oldHash := (List.lookup ev.srcPath s.fileHashes).getD ""
    if newHash ≠ oldHash then
      let relPath := relTo repoPath ev.srcPath
      let category := categorizeFile relPath
      { s with fileHashes := setHash s.fileHashes ev.srcPath newHash
               pending := addPending s.pending category relPath }
    else s

/-- An emitted update request: what `process_pending_changes` hands to
`GitHubRepoManager.process_update` for one category. -/
structure UpdateRequest where
  category : String
  files : List String
  description : String
  deriving Repr, DecidableEq

/-- The per-category loop body of `process_pending_changes` combined with the
description generation of `_process_category_changes`: emit one request per
non-empty category and clear that category's set. -/
def flushCats : List (String × List String) →
    List UpdateRequest × List (String × List String)
  | [] => ([], [])
  | (cat, files) :: rest =>
    let r := flushCats rest
    if files.isEmpty then (r.1, (cat, files) :: r.2)
    else
      let description :=
        if files.length = 1 then "Update " ++ files.headD ""
        else "Update " ++ toString files.length ++ " " ++ cat ++ " files"
      ({ category := cat, files := files, description := description } :: r.1,
       (cat, []) :: r.2)

/-- `RepositoryMonitor.process_pending_changes`: a no-op inside the
quiescence window (`current_time - last_process_time < process_delay`,
written additively so that integer time points model the Python float
arithmetic exactly); otherwise flush every non-empty category, stamp the
flush time and persist the hash mapping (`_save_file_hashes`). -/
def processPendingChanges (now : Nat) (s : MonState) :
    List UpdateRequest × MonState :=
  if now < s.lastProcessTime + s.processDelay then ([], s)
  else
    let r := flushCats s.pending
    (r.1, { s with pending := r.2
                   lastProcessTime := now
                   savedHashes := s.fileHashes })

/-! ## The workflow engine (`workflow-engine.py`, class `GitHubRepoManager`) -/

/-- The configuration object loaded from `agent-config.yaml`, restricted to
the keys the engine reads. -/
structure Config where
  protectedBranches : List String
  defaultBranch : String
  branchStrategy : List (String × String)
  commitFormat : String
  draftByDefault : Bool
  remoteUrl : String
  preventMainCommit : Bool
  deriving Repr, DecidableEq

/-- Outcome environment for the external collaborators whose success is not
determined by the modelled repository state: the `git fetch` network call and
the hosting CLI (`gh`). -/
structure Env where
  fetchOk : Bool
  ghAvailable : Bool
  prOk : Bool
  prUrl : String
  deriving Repr, DecidableEq

/-- State of the local working copy as far as the issued git commands
observe and mutate it, plus an audit trail of the commands issued. -/
structure GitState where
  branches : List String
  head : String
  worktree : List String
  staged : List String
  commitLog : List (String × String)
  checkouts : List (String × Option String)
  pushes : List String
  fetches : List Bool
  deriving Repr, DecidableEq

/-- One issued write-mutating git command (`git commit` from
`commit_changes` or `git push` from `push_branch`), together with the
manager's `current_branch` attribute and the checked-out branch at the
moment of issue, and whether the command succeeded. -/
structure LogEntry where
  isPush : Bool
  mgrBranch : Option String
  head : String
  ok : Bool
  deriving Repr, DecidableEq

/-- State of a `GitHubRepoManager` instance: working copy, the
`current_branch` attribute, and the trail of issued commit/push commands. -/
structure MgrState where
  git : GitState
  currentBranch : Option String
  log : List LogEntry
  deriving Repr, DecidableEq

/-- `GitHubRepoManager.__init__`: `current_branch = None`, nothing issued. -/
def mgrInit (g : GitState) : MgrState :=
  { git := g, currentBranch := none, log := [] }

/-- `git checkout -b name [base]`: fails (and is swallowed by
`_run_git_command`) when the branch already exists; otherwise creates it and
moves `HEAD` onto it.  The attempt and its base are always recorded. -/
def gitCheckoutNew (g : GitState) (name : String) (base : Option String) :
    GitState :=
  let g := { g with checkouts := g.checkouts ++ [(name, base)] }
  if name ∈ g.branches then g
  else { g with branches := g.branches ++ [name], head := name }

/-- `git add path`: fails (swallowed) when the path does not exist in the
working tree; otherwise stages it. -/
def gitAdd (g : GitState) (path : String) : GitState :=
  if path ∈ g.worktree then
    { g with staged := if path ∈ g.staged then g.staged else g.staged ++ [path] }
  else g

/-- `git commit -m msg`: fails (swallowed) when nothing is staged; otherwise
records a commit on the checked-out branch and empties the index.  The `Bool`
is the command's success. -/
def gitCommit (g : GitState) (msg : String) : GitState × Bool :=
  if g.staged.isEmpty then (g, false)
  else ({ g with commitLog := g.commitLog ++ [(g.head, msg)], staged := [] }, true)

/-- `git fetch origin`: no effect on the modelled local state; the attempt's
outcome is recorded (a failure is logged and swallowed by the source). -/
def gitFetch (g : GitState) (ok : Bool) : GitState :=
  { g with fetches := g.fetches ++ [ok] }

/-- Python `pattern.format(timestamp=..., description=...)` for the branch
naming templates: simultaneous substitution of the two placeholders. -/
def fmtBranch (ts desc : List Char) : List Char → List Char
  | [] => []
  | '\x7b' :: 't' :: 'i' :: 'm' :: 'e' :: 's' :: 't' :: 'a' :: 'm' :: 'p' :: '\x7d' :: rest =>
    ts ++ fmtBranch ts desc rest
  | '\x7b' :: 'd' :: 'e' :: 's' :: 'c' :: 'r' :: 'i' :: 'p' :: 't' :: 'i' :: 'o' :: 'n' :: '\x7d' :: rest =>
    desc ++ fmtBranch ts desc rest
  | c :: rest => c :: fmtBranch ts desc rest

/-- Python `format.format(type=..., scope=..., description=...)` for the
commit message template. -/
def fmtCommitTemplate (ty sc d : List Char) : List Char → List Char
  | [] => []
  | '\x7b' :: 't' :: 'y' :: 'p' :: 'e' :: '\x7d' :: rest =>
    ty ++ fmtCommitTemplate ty sc d rest
  | '\x7b' :: 's' :: 'c' :: 'o' :: 'p' :: 'e' :: '\x7d' :: rest =>
    sc ++ fmtCommitTemplate ty sc d rest
  | '\x7b' :: 'd' :: 'e' :: 's' :: 'c' :: 'r' :: 'i' :: 'p' :: 't' :: 'i' :: 'o' :: 'n' :: '\x7d' :: rest =>
    d ++ fmtCommitTemplate ty sc d rest
  | c :: rest => c :: fmtCommitTemplate ty sc d rest

/-- The branch-name computation of `create_feature_branch`: look up
`<branch_type>_pattern` under `workflow_rules.branch_strategy`, fall back to
the hard-coded default template, then substitute timestamp and slug. -/
def mkBranchName (cfg : Config) (branchType desc ts : String) : String :=
  let patternKey := branchType ++ "_pattern"
  let pattern := (List.lookup patternKey cfg.branchStrategy).getD
    "feature/\x7btimestamp\x7d-\x7bdescription\x7d"
  String.mk (fmtBranch ts.data (slugify desc).data pattern.data)

/-- The commit message of `commit_changes`, from the configured
`workflow_rules.commit_conventions.format` template. -/
def mkCommitMessage (cfg : Config) (ctype scope desc : String) : String :=
  String.mk (fmtCommitTemplate ctype.data scope.data desc.data cfg.commitFormat.data)

/-- `GitHubRepoManager._ensure_not_on_main`: read the checked-out branch
(`git branch --show-current`); if it is protected, create and switch to a
timestamped escape branch.  Note that the source does NOT update the
`current_branch` attribute here. -/
def ensureNotOnMain (cfg : Config) (ts : String) (s : MgrState) : MgrState :=
  let current := s.git.head
  if current ∈ cfg.protectedBranches then
    let safe := "work/" ++ ts
    { s with git := gitCheckoutNew s.git safe none }
  else s

/-- `GitHubRepoManager.create_feature_branch`: build the branch name, fetch
the remote, and run `git checkout -b <name> origin/main` (the base is the
hard-coded literal `origin/main`).  Both command failures are swallowed by
`_run_git_command`; the function always returns the branch name and always
assigns it to `current_branch`. -/
def createFeatureBranch (cfg : Config) (env : Env) (branchType desc ts : String)
    (s : MgrState) : String × MgrState :=
  let branchName := mkBranchName cfg branchType desc ts
  let g1 := gitFetch s.git env.fetchOk
  let g2 := gitCheckoutNew g1 branchName (some "origin/main")
  (branchName, { s with git := g2, currentBranch := some branchName })

/-- Stage every path of the list in order (the `for file in files` loop of
`commit_changes`). -/
def stageAll (g : GitState) (files : List String) : GitState :=
  files.foldl gitAdd g

/-- `GitHubRepoManager.commit_changes`, parameterised by whether the
`_ensure_not_on_main` guard runs (`guarded = true` is the source;
`guarded = false` is the stubbed variant that claim C2 quantifies over).
Failures of `git add` and `git commit` are swallowed by `_run_git_command`,
so the function always returns normally; the commit attempt is recorded in
the trace together with `current_branch` at the moment of issue. -/
def commitChangesCore (guarded : Bool) (cfg : Config) (ts : String)
    (files : List String) (ctype scope desc : String) (s : MgrState) : MgrState :=
  let s0 := if guarded then ensureNotOnMain cfg ts s else s
  let g1 := stageAll s0.git files
  let msg := mkCommitMessage cfg ctype scope desc
  let c := gitCommit g1 msg
  { s0 with git := c.1
            log := s0.log ++
      [{ isPush := false, mgrBranch := s0.currentBranch, head := g1.head, ok := c.2 }] }

/-- `GitHubRepoManager.commit_changes` as written in the source. -/
def commitChanges (cfg : Config) (ts : String) (files : List String)
    (ctype scope desc : String) (s : MgrState) : MgrState :=
  commitChangesCore true cfg ts files ctype scope desc s

/-- `GitHubRepoManager.push_branch`: raises `ValueError` when
`current_branch` is unset, raises when `current_branch` is protected, and
otherwise issues the push (recorded in the trace). -/
def pushBranch (cfg : Config) (setUpstream : Bool) (s : MgrState) :
    Except String Unit × MgrState :=
  match s.currentBranch with
  | none => (Except.error "No current branch set", s)
  | some cb =>
    if cb ∈ cfg.protectedBranches then
      (Except.error ("BLOCKED: Cannot push to protected branch " ++ cb), s)
    else
      (Except.ok (),
       { s with git := { s.git with pushes := s.git.pushes ++ [cb] }
                log := s.log ++
          [{ isPush := true, mgrBranch := some cb, head := s.git.head, ok := true }] })

/-- `GitHubRepoManager.create_pull_request`: returns `None` when the `gh`
CLI is absent or the PR-creation command fails, the PR URL otherwise. -/
def createPullRequest (cfg : Config) (env : Env) (title body : String)
    (labels : List String) (s : MgrState) : Option String × MgrState :=
  if env.ghAvailable = false then (none, s)
  else if env.prOk then (some env.prUrl, s)
  else (none, s)

/-- The `branch_type_map` literal of `process_update`. -/
def branchTypeMap : List (String × String) :=
  [("feature", "feature"), ("documentation", "docs"), ("bugfix", "fix"),
   ("configuration", "config"), ("maintenance", "update")]

/-- `GitHubRepoManager._determine_scope`. -/
def determineScope (files : List String) : String :=
  if files.any (fun f => containsStr "doc" (lowerStr f)) then "docs"
  else if files.any (fun f =>
      containsStr "config" (lowerStr f) || containsStr ".yaml" f || containsStr ".json" f) then
    "config"
  else if files.any (fun f =>
      containsStr "script" (lowerStr f) || containsStr ".sh" f || containsStr ".py" f) then
    "scripts"
  else "core"

/-- `GitHubRepoManager._generate_pr_body` (the fixed template). -/
def genPrBody (updateType : String) (files : List String) (desc : String)
    (s : MgrState) : String :=
  let branchStr := (s.currentBranch).getD "None"
  let fileLines := files.foldl (fun acc f => acc ++ "- " ++ f ++ "\n") ""
  "## Summary\n" ++ desc ++ "\n\n## Type of Change\n- Update Type: " ++
    updateType ++ "\n- Branch: " ++ branchStr ++ "\n\n## Files Changed\n" ++
    fileLines ++
    "\n## Checklist\n- [x] Changes follow branch-based workflow\n" ++
    "- [x] Commits follow conventional format\n" ++
    "- [x] No direct commits to main branch\n- [ ] Tests pass (if applicable)\n" ++
    "- [ ] Documentation updated (if needed)\n\n---\n" ++
    "*This PR was created automatically by the GitHub Repository Manager*\n"

/-- The `WorkflowResult` dictionary returned by `process_update`. -/
structure WorkflowResult where
  branch : String
  commitType : String
  prUrl : Option String
  status : String
  deriving Repr, DecidableEq

/-- The internal branch-type mapping of `process_update`
(`branch_type_map.get(update_type, 'feature')`). -/
def updBranchType (updateType : String) : String :=
  (List.lookup updateType branchTypeMap).getD "feature"

/-- The tail of `process_update` that runs after `push_branch` returns: a
push-time `ValueError` propagates (aborting the sequence), otherwise the PR
is created and the result dictionary is assembled. -/
def afterPush (cfg : Config) (env : Env) (updateType : String)
    (files : List String) (desc : String)
    (branchName branchType commitType scope : String) :
    Except String Unit × MgrState → Except String WorkflowResult × MgrState
  | (Except.error e, s3) => (Except.error e, s3)
  | (Except.ok _, s3) =>
    let prTitle := commitType ++ "(" ++ scope ++ "): " ++ desc
    let prBody := genPrBody updateType files desc s3
    let pu := createPullRequest cfg env prTitle prBody [branchType, "automated"] s3
    (Except.ok
      { branch := branchName
        commitType := commitType
        prUrl := pu.1
        status := if pu.1.isSome then "success" else "failed" }, pu.2)

/-- `GitHubRepoManager.process_update`, parameterised like
`commitChangesCore` by whether the commit-time guard runs.  The only
exception that can escape is the `ValueError` of `push_branch`, which aborts
the sequence with the partially-created branch and commit left in place. -/
def processUpdateCore (guarded : Bool) (cfg : Config) (env : Env)
    (updateType : String) (files : List String) (desc ts : String)
    (s : MgrState) : Except String WorkflowResult × MgrState :=
  let branchType := updBranchType updateType
  let bs := createFeatureBranch cfg env branchType desc ts s
  let branchName := bs.1
  let commitType := if branchType ≠ "docs" then branchType else "docs"
  let scope := determineScope files
  let s2 := commitChangesCore guarded cfg ts files commitType scope desc bs.2
  afterPush cfg env updateType files desc branchName branchType commitType scope
    (pushBranch cfg true s2)

/-- `GitHubRepoManager.process_update` as written in the source. -/
def processUpdate (cfg : Config) (env : Env) (updateType : String)
    (files : List String) (desc ts : String) (s : MgrState) :
    Except String WorkflowResult × MgrState :=
  processUpdateCore true cfg env updateType files desc ts s

/-- The stubbed variant claim C2 quantifies over: `_ensure_not_on_main`
replaced by a no-op inside `commit_changes`. -/
def processUpdateStub (cfg : Config) (env : Env) (updateType : String)
    (files : List String) (desc ts : String) (s : MgrState) :
    Except String WorkflowResult × MgrState :=
  processUpdateCore false cfg env updateType files desc ts s

/-! ## Reachability: every execution of the workflow -/

/-- A write-mutating trace entry is clean when the manager's
`current_branch` at the moment of issue was not protected. -/
def entryClean (cfg : Config) (e : LogEntry) : Prop :=
  ∀ b, e.mgrBranch = some b → b ∉ cfg.protectedBranches

/-- All issued commit/push commands of the trace are clean. -/
def logClean (cfg : Config) (s : MgrState) : Prop :=
  ∀ e ∈ s.log, entryClean cfg e

/-- The `current_branch` attribute is unset or not protected. -/
def currentOk (cfg : Config) (s : MgrState) : Prop :=
  ∀ b, s.currentBranch = some b → b ∉ cfg.protectedBranches

/-- The configured naming templates never produce a protected branch name
(the well-configuredness hypothesis the protected-branch invariant rests
on). -/
def PatternsSafe (cfg : Config) : Prop :=
  ∀ branchType desc ts, mkBranchName cfg branchType desc ts ∉ cfg.protectedBranches

/-- Manager states reachable by any sequence of the engine's operations
from a fresh instance on an arbitrary working copy, with arbitrary
environment outcomes at every step. -/
inductive Reachable (cfg : Config) : MgrState → Prop
  | init (g : GitState) : Reachable cfg (mgrInit g)
  | ensure (ts : String) {s : MgrState} :
      Reachable cfg s → Reachable cfg (ensureNotOnMain cfg ts s)
  | createB (env : Env) (bty d ts : String) {s : MgrState} :
      Reachable cfg s → Reachable cfg (createFeatureBranch cfg env bty d ts s).2
  | commitC (ts : String) (files : List String) (ty sc d : String) {s : MgrState} :
      Reachable cfg s → Reachable cfg (commitChanges cfg ts files ty sc d s)
  | pushB (su : Bool) {s : MgrState} :
      Reachable cfg s → Reachable cfg (pushBranch cfg su s).2
  | prC (env : Env) (t b : String) (ls : List String) {s : MgrState} :
      Reachable cfg s → Reachable cfg (createPullRequest cfg env t b ls s).2
  | procU (env : Env) (uty : String) (files : List String) (d ts : String) {s : MgrState} :
      Reachable cfg s → Reachable cfg (processUpdate cfg env uty files d ts s).2

/-! ## Spec-side definitions (for refinement comparisons)

These two definitions follow the specification's words rather than the code;
the theorems below compare them with the embedded source functions. -/

/-- From the spec: the UpdateRequest a flush emits for one non-empty
category — description "Update <path>" when the category holds a single
file, "Update <N> <category> files" otherwise. -/
def specUpdateRequest (cat : String) (files : List String) : UpdateRequest :=
  { category := cat
    files := files
    description :=
      if files.length = 1 then "Update " ++ files.headD ""
      else "Update " ++ toString files.length ++ " " ++ cat ++ " files" }

/-- From the spec (claim C8): first-match-wins classification over a
case-insensitive match on the relative path. -/
def specClassify (relPath : String) : String :=
  let q := lowerStr relPath
  if containsStr "readme" q || containsStr "doc" q || containsStr ".md" q ||
      containsStr "license" q then "docs"
  else if containsStr "config" q || containsStr ".yaml" q || containsStr ".yml" q ||
      containsStr ".json" q || containsStr ".ini" q then "config"
  else if containsStr ".sh" q || containsStr ".py" q || containsStr "script" q then
    "feature"
  else "feature"

/-! ## Concrete instances used by the counterexamples and witnesses -/

/-- A well-formed configuration: protected branches `main`/`master`, no
custom naming templates (every category falls back to the default
`feature/...` template), the conventional-commit message format. -/
def cfgSafe : Config :=
  { protectedBranches := ["main", "master"]
    defaultBranch := "main"
    branchStrategy := []
    commitFormat := "\x7btype\x7d(\x7bscope\x7d): \x7bdescription\x7d"
    draftByDefault := true
    remoteUrl := "git@github.com:example/repo.git"
    preventMainCommit := true }

/-- A configuration that passes `_validate_configuration` but whose
`feature_pattern` naming template produces the protected name `main`. -/
def cfgBad : Config :=
  { cfgSafe with protectedBranches := ["main"]
                 branchStrategy := [("feature_pattern", "main")] }

/-- `cfgSafe` with the remote's default branch configured as `develop`. -/
def cfgDev : Config :=
  { cfgSafe with defaultBranch := "develop" }

/-- A working copy sitting on a safe branch `work/a`. -/
def gitBad : GitState :=
  { branches := ["main", "work/a"], head := "work/a", worktree := ["f.txt"]
    staged := [], commitLog := [], checkouts := [], pushes := [], fetches := [] }

/-- A working copy checked out on the protected branch `main`. -/
def gitOnMain : GitState :=
  { branches := ["main"], head := "main", worktree := ["a.txt"]
    staged := [], commitLog := [], checkouts := [], pushes := [], fetches := [] }

/-- A working copy on `work/a` where the branch `feature/t1-x` already
exists, so that a later `git checkout -b feature/t1-x` fails. -/
def gitCollide : GitState :=
  { branches := ["main", "feature/t1-x"], head := "work/a", worktree := []
    staged := [], commitLog := [], checkouts := [], pushes := [], fetches := [] }

/-- Environment: everything available and succeeding. -/
def envA : Env :=
  { fetchOk := true, ghAvailable := true, prOk := true
    prUrl := "https://example.test/pr/1" }

/-- Environment: the network fetch fails. -/
def envNoNet : Env := { envA with fetchOk := false }

/-- Environment: the `gh` hosting CLI is absent. -/
def envNoGh : Env := { envA with ghAvailable := false }

/-! ## Structural lemmas about the engine's operations -/

theorem ensureNotOnMain_currentBranch (cfg : Config) (ts : String) (s : MgrState) :
    (ensureNotOnMain cfg ts s).currentBranch = s.currentBranch := by
  unfold ensureNotOnMain
  dsimp only
  split <;> rfl

theorem ensureNotOnMain_log (cfg : Config) (ts : String) (s : MgrState) :
    (ensureNotOnMain cfg ts s).log = s.log := by
  unfold ensureNotOnMain
  dsimp only
  split <;> rfl

theorem createFeatureBranch_fst (cfg : Config) (env : Env) (bty d ts : String)
    (s : MgrState) :
    (createFeatureBranch cfg env bty d ts s).1 = mkBranchName cfg bty d ts := rfl

theorem createFeatureBranch_currentBranch (cfg : Config) (env : Env)
    (bty d ts : String) (s : MgrState) :
    (createFeatureBranch cfg env bty d ts s).2.currentBranch =
      some (mkBranchName cfg bty d ts) := rfl

theorem createFeatureBranch_log (cfg : Config) (env : Env) (bty d ts : String)
    (s : MgrState) :
    (createFeatureBranch cfg env bty d ts s).2.log = s.log := rfl

theorem gitAdd_head (g : GitState) (p : String) : (gitAdd g p).head = g.head := by
  unfold gitAdd
  split <;> rfl

theorem stageAll_head (files : List String) (g : GitState) :
    (stageAll g files).head = g.head := by
  induction files generalizing g with
  | nil => rfl
  | cons f rest ih =>
    show (stageAll (gitAdd g f) rest).head = g.head
    rw [ih, gitAdd_head]

theorem commitChangesCore_currentBranch (gu : Bool) (cfg : Config) (ts : String)
    (files : List String) (ty sc d : String) (s : MgrState) :
    (commitChangesCore gu cfg ts files ty sc d s).currentBranch = s.currentBranch := by
  unfold commitChangesCore
  dsimp only
  cases gu with
  | false => rfl
  | true => simp [ensureNotOnMain_currentBranch]

theorem commitChangesCore_log (gu : Bool) (cfg : Config) (ts : String)
    (files : List String) (ty sc d : String) (s : MgrState) :
    (commitChangesCore gu cfg ts files ty sc d s).log = s.log ++
      [{ isPush := false, mgrBranch := s.currentBranch
         head := (stageAll (if gu then ensureNotOnMain cfg ts s else s).git files).head
         ok := (gitCommit (stageAll (if gu then ensureNotOnMain cfg ts s else s).git files)
                  (mkCommitMessage cfg ty sc d)).2 }] := by
  unfold commitChangesCore
  dsimp only
  cases gu with
  | false => rfl
  | true => simp [ensureNotOnMain_currentBranch, ensureNotOnMain_log]

theorem pushBranch_currentBranch (cfg : Config) (su : Bool) (s : MgrState) :
    (pushBranch cfg su s).2.currentBranch = s.currentBranch := by
  unfold pushBranch
  cases hcb : s.currentBranch with
  | none => simp [hcb]
  | some cb =>
    dsimp only
    split <;> simp [hcb]

theorem pushBranch_log_mem (cfg : Config) (su : Bool) (s : MgrState)
    (e : LogEntry) (h : e ∈ (pushBranch cfg su s).2.log) :
    e ∈ s.log ∨ (e.isPush = true ∧ ∃ b, e.mgrBranch = some b ∧ b ∉ cfg.protectedBranches) := by
  unfold pushBranch at h
  cases hcb : s.currentBranch with
  | none =>
    rw [hcb] at h
    exact Or.inl h
  | some cb =>
    rw [hcb] at h
    dsimp only at h
    by_cases hp : cb ∈ cfg.protectedBranches
    · simp only [if_pos hp] at h
      exact Or.inl h
    · simp only [if_neg hp, List.mem_append, List.mem_singleton] at h
      rcases h with h | h
      · exact Or.inl h
      · subst h
        exact Or.inr ⟨rfl, cb, rfl, hp⟩

theorem createPullRequest_snd (cfg : Config) (env : Env) (t b : String)
    (ls : List String) (s : MgrState) :
    (createPullRequest cfg env t b ls s).2 = s := by
  unfold createPullRequest
  split
  · rfl
  · split <;> rfl

theorem afterPush_snd_currentBranch (cfg : Config) (env : Env) (uty : String)
    (files : List String) (d bn bty cty sc : String)
    (pr : Except String Unit × MgrState) :
    (afterPush cfg env uty files d bn bty cty sc pr).2.currentBranch =
      pr.2.currentBranch := by
  rcases pr with ⟨r, s3⟩
  cases r with
  | error e => rfl
  | ok u =>
    show (createPullRequest cfg env _ _ _ s3).2.currentBranch = s3.currentBranch
    rw [createPullRequest_snd]

theorem afterPush_snd_log (cfg : Config) (env : Env) (uty : String)
    (files : List String) (d bn bty cty sc : String)
    (pr : Except String Unit × MgrState) :
    (afterPush cfg env uty files d bn bty cty sc pr).2.log = pr.2.log := by
  rcases pr with ⟨r, s3⟩
  cases r with
  | error e => rfl
  | ok u =>
    show (createPullRequest cfg env _ _ _ s3).2.log = s3.log
    rw [createPullRequest_snd]

theorem processUpdateCore_currentBranch (gu : Bool) (cfg : Config) (env : Env)
    (uty : String) (files : List String) (d ts : String) (s : MgrState) :
    (processUpdateCore gu cfg env uty files d ts s).2.currentBranch =
      some (mkBranchName cfg (updBranchType uty) d ts) := by
  unfold processUpdateCore
  dsimp only
  rw [afterPush_snd_currentBranch, pushBranch_currentBranch,
    commitChangesCore_currentBranch, createFeatureBranch_currentBranch]

theorem processUpdateCore_log_mem (gu : Bool) (cfg : Config) (env : Env)
    (uty : String) (files : List String) (d ts : String) (s : MgrState)
    (e : LogEntry) (h : e ∈ (processUpdateCore gu cfg env uty files d ts s).2.log) :
    e ∈ s.log ∨ (e.isPush = false ∧
        e.mgrBranch = some (mkBranchName cfg (updBranchType uty) d ts)) ∨
      (e.isPush = true ∧ ∃ b, e.mgrBranch = some b ∧ b ∉ cfg.protectedBranches) := by
  unfold processUpdateCore at h
  dsimp only at h
  rw [afterPush_snd_log] at h
  rcases pushBranch_log_mem _ _ _ _ h with h2 | h2
  · rw [commitChangesCore_log] at h2
    rcases List.mem_append.mp h2 with h3 | h3
    · rw [createFeatureBranch_log] at h3
      exact Or.inl h3
    · rcases List.mem_singleton.mp h3 with rfl
      refine Or.inr (Or.inl ⟨rfl, ?_⟩)
      rw [createFeatureBranch_currentBranch]
  · exact Or.inr (Or.inr h2)

/-! ## The global protected-branch invariant over reachable states -/

theorem reachable_inv (cfg : Config) (hpat : PatternsSafe cfg) (s : MgrState)
    (hr : Reachable cfg s) : currentOk cfg s ∧ logClean cfg s := by
  induction hr with
  | init g =>
    constructor
    · intro b hb
      simp [mgrInit] at hb
    · intro e he
      simp [mgrInit] at he
  | ensure ts hr ih =>
    refine ⟨?_, ?_⟩
    · intro b hb
      rw [ensureNotOnMain_currentBranch] at hb
      exact ih.1 b hb
    · intro e he
      rw [ensureNotOnMain_log] at he
      exact ih.2 e he
  | createB env bty d ts hr ih =>
    refine ⟨?_, ?_⟩
    · intro b hb
      rw [createFeatureBranch_currentBranch] at hb
      cases hb
      exact hpat bty d ts
    · intro e he
      rw [createFeatureBranch_log] at he
      exact ih.2 e he
  | commitC ts files ty sc d hr ih =>
    refine ⟨?_, ?_⟩
    · intro b hb
      rw [commitChanges, commitChangesCore_currentBranch] at hb
      exact ih.1 b hb
    · intro e he
      rw [commitChanges, commitChangesCore_log] at he
      rcases List.mem_append.mp he with h3 | h3
      · exact ih.2 e h3
      · rcases List.mem_singleton.mp h3 with rfl
        intro b hb
        exact ih.1 b hb
  | pushB su hr ih =>
    refine ⟨?_, ?_⟩
    · intro b hb
      rw [pushBranch_currentBranch] at hb
      exact ih.1 b hb
    · intro e he
      rcases pushBranch_log_mem _ _ _ _ he with h2 | h2
      · exact ih.2 e h2
      · rcases h2 with ⟨_, b, hb, hnp⟩
        intro b2 hb2
        rw [hb] at hb2
        cases hb2
        exact hnp
  | prC env t b ls hr ih =>
    rw [createPullRequest_snd]
    exact ih
  | procU env uty files d ts hr ih =>
    refine ⟨?_, ?_⟩
    · intro b hb
      rw [processUpdate, processUpdateCore_currentBranch] at hb
      cases hb
      exact hpat (updBranchType uty) d ts
    · intro e he
      rcases processUpdateCore_log_mem _ _ _ _ _ _ _ _ _ he with h2 | h2 | h2
      · exact ih.2 e h2
      · intro b hb
        rw [h2.2] at hb
        cases hb
        exact hpat (updBranchType uty) d ts
      · rcases h2 with ⟨_, b, hb, hnp⟩
        intro b2 hb2
        rw [hb] at hb2
        cases hb2
        exact hnp

/-! ## Field-preservation lemmas for the git command models -/

theorem gitFetch_eq (g : GitState) (ok : Bool) :
    gitFetch g ok = { g with fetches := g.fetches ++ [ok] } := rfl

theorem gitCheckoutNew_worktree (g : GitState) (n : String) (b : Option String) :
    (gitCheckoutNew g n b).worktree = g.worktree := by
  unfold gitCheckoutNew
  dsimp only
  split <;> rfl

theorem gitCheckoutNew_staged (g : GitState) (n : String) (b : Option String) :
    (gitCheckoutNew g n b).staged = g.staged := by
  unfold gitCheckoutNew
  dsimp only
  split <;> rfl

theorem gitCheckoutNew_commitLog (g : GitState) (n : String) (b : Option String) :
    (gitCheckoutNew g n b).commitLog = g.commitLog := by
  unfold gitCheckoutNew
  dsimp only
  split <;> rfl

theorem gitCheckoutNew_checkouts (g : GitState) (n : String) (b : Option String) :
    (gitCheckoutNew g n b).checkouts = g.checkouts ++ [(n, b)] := by
  unfold gitCheckoutNew
  dsimp only
  split <;> rfl

theorem gitCheckoutNew_new (g : GitState) (n : String) (b : Option String)
    (h : n ∉ g.branches) :
    (gitCheckoutNew g n b).branches = g.branches ++ [n] ∧
      (gitCheckoutNew g n b).head = n := by
  unfold gitCheckoutNew
  dsimp only
  rw [if_neg h]
  exact ⟨rfl, rfl⟩

theorem gitCheckoutNew_old (g : GitState) (n : String) (b : Option String)
    (h : n ∈ g.branches) :
    (gitCheckoutNew g n b).branches = g.branches ∧
      (gitCheckoutNew g n b).head = g.head := by
  unfold gitCheckoutNew
  dsimp only
  rw [if_pos h]
  exact ⟨rfl, rfl⟩

theorem gitAdd_worktree (g : GitState) (p : String) :
    (gitAdd g p).worktree = g.worktree := by
  unfold gitAdd
  split <;> rfl

theorem gitAdd_branches (g : GitState) (p : String) :
    (gitAdd g p).branches = g.branches := by
  unfold gitAdd
  split <;> rfl

theorem gitAdd_commitLog (g : GitState) (p : String) :
    (gitAdd g p).commitLog = g.commitLog := by
  unfold gitAdd
  split <;> rfl

theorem gitAdd_staged_ne (g : GitState) (p : String) (h : g.staged ≠ []) :
    (gitAdd g p).staged ≠ [] := by
  unfold gitAdd
  split
  · dsimp only
    split
    · exact h
    · intro hc
      exact absurd (List.append_eq_nil.mp hc).1 h
  · exact h

theorem gitAdd_mem_staged_ne (g : GitState) (p : String) (h : p ∈ g.worktree) :
    (gitAdd g p).staged ≠ [] := by
  unfold gitAdd
  rw [if_pos h]
  dsimp only
  split
  · rename_i hp
    intro hc
    rw [hc] at hp
    exact absurd hp (List.not_mem_nil p)
  · intro hc
    have := (List.append_eq_nil.mp hc).2
    simp at this

theorem gitAdd_no (g : GitState) (p : String) (h : p ∉ g.worktree) :
    gitAdd g p = g := by
  unfold gitAdd
  rw [if_neg h]

theorem stageAll_worktree (files : List String) (g : GitState) :
    (stageAll g files).worktree = g.worktree := by
  induction files generalizing g with
  | nil => rfl
  | cons f rest ih =>
    show (stageAll (gitAdd g f) rest).worktree = g.worktree
    rw [ih, gitAdd_worktree]

theorem stageAll_branches (files : List String) (g : GitState) :
    (stageAll g files).branches = g.branches := by
  induction files generalizing g with
  | nil => rfl
  | cons f rest ih =>
    show (stageAll (gitAdd g f) rest).branches = g.branches
    rw [ih, gitAdd_branches]

theorem stageAll_commitLog (files : List String) (g : GitState) :
    (stageAll g files).commitLog = g.commitLog := by
  induction files generalizing g with
  | nil => rfl
  | cons f rest ih =>
    show (stageAll (gitAdd g f) rest).commitLog = g.commitLog
    rw [ih, gitAdd_commitLog]

theorem stageAll_staged_ne (files : List String) (g : GitState)
    (h : g.staged ≠ []) : (stageAll g files).staged ≠ [] := by
  induction files generalizing g with
  | nil => exact h
  | cons f rest ih =>
    show (stageAll (gitAdd g f) rest).staged ≠ []
    exact ih _ (gitAdd_staged_ne g f h)

theorem stageAll_exists_staged_ne (files : List String) (g : GitState)
    (h : ∃ f ∈ files, f ∈ g.worktree) : (stageAll g files).staged ≠ [] := by
  induction files generalizing g with
  | nil => simp at h
  | cons f rest ih =>
    show (stageAll (gitAdd g f) rest).staged ≠ []
    rcases h with ⟨f2, hf2, hw⟩
    rcases List.mem_cons.mp hf2 with rfl | hin
    · exact stageAll_staged_ne rest _ (gitAdd_mem_staged_ne g f2 hw)
    · refine ih (gitAdd g f) ⟨f2, hin, ?_⟩
      rw [gitAdd_worktree]
      exact hw

theorem stageAll_none (files : List String) (g : GitState)
    (h : ∀ f ∈ files, f ∉ g.worktree) : stageAll g files = g := by
  induction files generalizing g with
  | nil => rfl
  | cons f rest ih =>
    show stageAll (gitAdd g f) rest = g
    rw [gitAdd_no g f (h f (List.mem_cons_self f rest))]
    exact ih g (fun f2 hf2 => h f2 (List.mem_cons_of_mem f hf2))

theorem gitCommit_empty (g : GitState) (msg : String) (h : g.staged = []) :
    gitCommit g msg = (g, false) := by
  unfold gitCommit
  rw [if_pos (by rw [h]; rfl)]

theorem gitCommit_ne (g : GitState) (msg : String) (h : g.staged ≠ []) :
    gitCommit g msg =
      ({ g with commitLog := g.commitLog ++ [(g.head, msg)], staged := [] }, true) := by
  unfold gitCommit
  rw [if_neg (by simpa [List.isEmpty_iff] using h)]

theorem ensureNotOnMain_safe (cfg : Config) (ts : String) (s : MgrState)
    (h : s.git.head ∉ cfg.protectedBranches) : ensureNotOnMain cfg ts s = s := by
  unfold ensureNotOnMain
  dsimp only
  rw [if_neg h]

theorem pushBranch_ok (cfg : Config) (su : Bool) (s : MgrState) (cb : String)
    (hcb : s.currentBranch = some cb) (hp : cb ∉ cfg.protectedBranches) :
    pushBranch cfg su s = (Except.ok (),
      { s with git := { s.git with pushes := s.git.pushes ++ [cb] }
               log := s.log ++
          [{ isPush := true, mgrBranch := some cb, head := s.git.head, ok := true }] }) := by
  unfold pushBranch
  rw [hcb]
  dsimp only
  rw [if_neg hp]

theorem createPullRequest_noGh (cfg : Config) (env : Env) (t b : String)
    (ls : List String) (s : MgrState) (h : env.ghAvailable = false) :
    createPullRequest cfg env t b ls s = (none, s) := by
  unfold createPullRequest
  rw [if_pos h]

/-! ## Lemmas about the flush and the branch-name builder -/

theorem flushCats_fst (l : List (String × List String)) :
    (flushCats l).1 =
      (l.filter (fun p => !p.2.isEmpty)).map (fun p => specUpdateRequest p.1 p.2) := by
  induction l with
  | nil => rfl
  | cons p rest ih =>
    rcases p with ⟨cat, files⟩
    cases files with
    | nil =>
      simp only [flushCats]
      simp [ih]
    | cons f fs =>
      simp only [flushCats]
      simp [ih, specUpdateRequest]

theorem flushCats_snd (l : List (String × List String)) :
    (flushCats l).2 = l.map (fun p => (p.1, ([] : List String))) := by
  induction l with
  | nil => rfl
  | cons p rest ih =>
    rcases p with ⟨cat, files⟩
    cases files with
    | nil =>
      simp only [flushCats]
      simp [ih]
    | cons f fs =>
      simp only [flushCats]
      simp [ih]

theorem mkBranchName_default (cfg : Config) (bty d ts : String)
    (h : List.lookup (bty ++ "_pattern") cfg.branchStrategy = none) :
    mkBranchName cfg bty d ts = "feature/" ++ ts ++ "-" ++ slugify d := by
  unfold mkBranchName
  dsimp only
  rw [h]
  show String.mk (fmtBranch ts.data (slugify d).data
    ("feature/\x7btimestamp\x7d-\x7bdescription\x7d").data) = _
  have hf : fmtBranch ts.data (slugify d).data
      ("feature/\x7btimestamp\x7d-\x7bdescription\x7d").data =
      "feature/".data ++ ts.data ++ '-' :: ((slugify d).data ++ []) := rfl
  rw [hf]
  apply congrArg String.mk
  simp [String.data_append, slugify]

theorem patternsSafe_cfgSafe : PatternsSafe cfgSafe := by
  intro bty d ts hmem
  have h : mkBranchName cfgSafe bty d ts = "feature/" ++ ts ++ "-" ++ slugify d :=
    mkBranchName_default cfgSafe bty d ts rfl
  rw [h] at hmem
  have hdata := fun (x : String) (hx : "feature/" ++ ts ++ "-" ++ slugify d = x) =>
    congrArg String.data hx
  rcases List.mem_cons.mp hmem with hc | hc
  · have := hdata _ hc
    simp [String.data_append] at this
  · rcases List.mem_cons.mp hc with hc2 | hc2
    · have := hdata _ hc2
      simp [String.data_append] at this
    · exact absurd hc2 (List.not_mem_nil _)

/-! ## Claim C1 -/

/-- C1 (counterexample to the claim as stated): under a configuration that
passes `_validate_configuration` but whose `feature_pattern` template is the
protected name `main`, one `process_update` execution from a fresh manager
issues a successful `git commit` (the sole trace entry, `ok = true`) while
the manager's `current_branch` attribute is `main`, a member of the
configured protected-branch set.  The commit-time guard only inspects the
checked-out branch (`work/a` here), not the attribute the claim speaks
about. -/
theorem commit_on_protected_current_branch_cex :
    (processUpdate cfgBad envA "feature" ["f.txt"] "d" "t1" (mgrInit gitBad)).2.log =
      [{ isPush := false, mgrBranch := some "main", head := "work/a", ok := true }] ∧
    "main" ∈ cfgBad.protectedBranches := by
  exact ⟨by decide, by decide⟩

/-- C1 (amended): provided the configured branch-naming templates never
produce a protected branch name, no write-mutating operation (a commit
issued by `commit_changes` or a push issued by `push_branch`) is ever
executed while the manager's `current_branch` is a member of the configured
protected-branch set, in any execution of the workflow. -/
theorem protected_branch_trace_invariant (cfg : Config) (hpat : PatternsSafe cfg)
    (s : MgrState) (hr : Reachable cfg s) : logClean cfg s :=
  (reachable_inv cfg hpat s hr).2

theorem protected_branch_trace_invariant_witness :
    PatternsSafe cfgSafe ∧
      logClean cfgSafe
        (processUpdate cfgSafe envA "feature" ["a.txt"] "add stuff" "20250101-000000"
          (mgrInit gitOnMain)).2 :=
  ⟨patternsSafe_cfgSafe,
   protected_branch_trace_invariant cfgSafe patternsSafe_cfgSafe _
     (Reachable.procU envA "feature" ["a.txt"] "add stuff" "20250101-000000"
       (Reachable.init gitOnMain))⟩

/-! ## Claim C2 -/

/-- C2 (counterexample to the claim as stated): with `_ensure_not_on_main`
stubbed to do nothing, a `process_update` invocation under the template
configuration `feature_pattern = "main"` issues a successful `git commit`
while `current_branch` is the protected name `main`; the check inside
`push_branch` blocks only the push (the run aborts with the push-time
`ValueError`), so it is not by itself sufficient to prevent both mutating
operations. -/
theorem stubbed_guard_commit_on_protected_cex :
    (processUpdateStub cfgBad envA "feature" ["f.txt"] "d" "t1" (mgrInit gitBad)).2.log =
      [{ isPush := false, mgrBranch := some "main", head := "work/a", ok := true }] ∧
    (processUpdateStub cfgBad envA "feature" ["f.txt"] "d" "t1" (mgrInit gitBad)).1 =
      Except.error "BLOCKED: Cannot push to protected branch main" ∧
    "main" ∈ cfgBad.protectedBranches := by
  exact ⟨by decide, rfl, by decide⟩

/-- C2 (amended): for every invocation of `process_update` with the
`_ensure_not_on_main` guard stubbed out, the check inside `push_branch` by
itself guarantees that no push is issued while `current_branch` is
protected; and no commit is issued while `current_branch` is protected
provided the branch name built for this invocation is not protected (the
push-time check alone does not protect the commit step). -/
theorem push_guard_independent_safety (cfg : Config) (env : Env) (uty : String)
    (files : List String) (d ts : String) (s : MgrState) :
    (∀ e ∈ (processUpdateStub cfg env uty files d ts s).2.log, e ∉ s.log →
      e.isPush = true → entryClean cfg e) ∧
    (mkBranchName cfg (updBranchType uty) d ts ∉ cfg.protectedBranches →
      ∀ e ∈ (processUpdateStub cfg env uty files d ts s).2.log, e ∉ s.log →
        entryClean cfg e) := by
  constructor
  · intro e he hnew hpush
    rcases processUpdateCore_log_mem false cfg env uty files d ts s e he with
      h | h | h
    · exact absurd h hnew
    · rw [h.1] at hpush
      cases hpush
    · rcases h with ⟨_, b, hb, hnp⟩
      intro b2 hb2
      rw [hb] at hb2
      cases hb2
      exact hnp
  · intro hbn e he hnew
    rcases processUpdateCore_log_mem false cfg env uty files d ts s e he with
      h | h | h
    · exact absurd h hnew
    · intro b hb
      rw [h.2] at hb
      cases hb
      exact hbn
    · rcases h with ⟨_, b, hb, hnp⟩
      intro b2 hb2
      rw [hb] at hb2
      cases hb2
      exact hnp

theorem push_guard_independent_safety_witness :
    (mkBranchName cfgSafe (updBranchType "feature") "add stuff" "t1" ∉
        cfgSafe.protectedBranches) ∧
    (∀ e ∈ (processUpdateStub cfgSafe envA "feature" ["a.txt"] "add stuff" "t1"
        (mgrInit gitOnMain)).2.log,
      e ∉ (mgrInit gitOnMain).log → entryClean cfgSafe e) :=
  ⟨by decide,
   (push_guard_independent_safety cfgSafe envA "feature" ["a.txt"] "add stuff" "t1"
     (mgrInit gitOnMain)).2 (by decide)⟩

/-! ## Claim C5 -/

/-- C5 (counterexample to the claim as stated): from a working copy checked
out on the protected branch `main`, `_ensure_not_on_main` creates and
switches to the escape branch `work/20250101-000000`, yet the manager's
`current_branch` attribute is NOT updated (it stays `None`), refuting
"updated whenever a new branch is created — including the escape branch". -/
theorem escape_branch_not_tracked_cex :
    (ensureNotOnMain cfgSafe "20250101-000000"
        { git := gitOnMain, currentBranch := none, log := [] }).git.head =
      "work/20250101-000000" ∧
    (ensureNotOnMain cfgSafe "20250101-000000"
        { git := gitOnMain, currentBranch := none, log := [] }).git.branches =
      ["main", "work/20250101-000000"] ∧
    (ensureNotOnMain cfgSafe "20250101-000000"
        { git := gitOnMain, currentBranch := none, log := [] }).currentBranch =
      none := by
  exact ⟨by decide, by decide, by decide⟩

/-- C5 (amended): `current_branch` starts unset (`None`) at initialization
and is assigned exactly by `create_feature_branch`, which sets it to the
name it returns; the escape branch created by `_ensure_not_on_main` does
NOT update it; and provided the configured naming templates never produce a
protected name, `current_branch` never names a protected branch in any
reachable state. -/
theorem current_branch_lifecycle (cfg : Config) (hpat : PatternsSafe cfg) :
    (∀ g, (mgrInit g).currentBranch = none) ∧
    (∀ ts s, (ensureNotOnMain cfg ts s).currentBranch = s.currentBranch) ∧
    (∀ env bty d ts s,
      (createFeatureBranch cfg env bty d ts s).2.currentBranch =
        some ((createFeatureBranch cfg env bty d ts s).1)) ∧
    (∀ s, Reachable cfg s → currentOk cfg s) := by
  refine ⟨fun g => rfl, ensureNotOnMain_currentBranch cfg, fun env bty d ts s => rfl,
    fun s hr => (reachable_inv cfg hpat s hr).1⟩

theorem current_branch_lifecycle_witness :
    PatternsSafe cfgSafe ∧
      currentOk cfgSafe
        (createFeatureBranch cfgSafe envA "feature" "add stuff" "t1"
          (mgrInit gitOnMain)).2 :=
  ⟨patternsSafe_cfgSafe,
   (current_branch_lifecycle cfgSafe patternsSafe_cfgSafe).2.2.2 _
     (Reachable.createB envA "feature" "add stuff" "t1" (Reachable.init gitOnMain))⟩

/-! ## Claim C10 -/

/-- C10: calling `push_branch` when `current_branch` is still unset raises
`ValueError("No current branch set")` before any push command is issued,
leaving the manager and repository state unchanged. -/
theorem push_without_branch_raises (cfg : Config) (su : Bool) (s : MgrState)
    (h : s.currentBranch = none) :
    pushBranch cfg su s = (Except.error "No current branch set", s) := by
  unfold pushBranch
  rw [h]

theorem push_without_branch_raises_witness :
    (mgrInit gitOnMain).currentBranch = none ∧
      pushBranch cfgSafe true (mgrInit gitOnMain) =
        (Except.error "No current branch set", mgrInit gitOnMain) :=
  ⟨rfl, push_without_branch_raises cfgSafe true (mgrInit gitOnMain) rfl⟩

/-! ## Claim C3 -/

/-- C3 (counterexample to the claim as stated): `commit_changes` called with
an empty path list completes normally — no `CommitError` is raised (no such
exception exists in the source; `_run_git_command` catches the
`CalledProcessError` of the failing `git commit` and returns its exit code).
The run's only observable is the recorded failed commit attempt
(`ok = false`); no commit is created and the checked-out branch is
unaffected. -/
theorem commit_error_never_raised_cex :
    commitChanges cfgSafe "t1" [] "feature" "core" "d" (mgrInit gitBad) =
      { git := gitBad, currentBranch := none
        log := [{ isPush := false, mgrBranch := none, head := "work/a", ok := false }] } ∧
    (commitChanges cfgSafe "t1" [] "feature" "core" "d" (mgrInit gitBad)).git.commitLog
      = [] := by
  exact ⟨by decide, by decide⟩

/-- C3 (amended): staging a path that does not exist makes the underlying
`git add` fail, which is logged and swallowed, leaving the index unchanged;
committing with an empty staged set (in particular with an empty path list)
makes `git commit` fail, which is likewise swallowed.  `commit_changes`
returns normally in both cases: no exception is raised, no commit is
created, and (when the working copy is not on a protected branch) the
current branch is unaffected — the entire effect is one failed commit
attempt in the trace. -/
theorem commit_failure_swallowed (cfg : Config) (ts : String)
    (files : List String) (ty sc d : String) (s : MgrState)
    (hhead : s.git.head ∉ cfg.protectedBranches)
    (hstaged : s.git.staged = [])
    (hmiss : ∀ f ∈ files, f ∉ s.git.worktree) :
    commitChanges cfg ts files ty sc d s =
      { s with log := s.log ++
          [{ isPush := false, mgrBranch := s.currentBranch
             head := s.git.head, ok := false }] } := by
  unfold commitChanges commitChangesCore
  dsimp only
  rw [if_pos rfl, ensureNotOnMain_safe cfg ts s hhead,
    stageAll_none files s.git hmiss,
    gitCommit_empty s.git (mkCommitMessage cfg ty sc d) hstaged]

theorem commit_failure_swallowed_witness :
    ((mgrInit gitBad).git.head ∉ cfgSafe.protectedBranches ∧
      (mgrInit gitBad).git.staged = [] ∧
      ∀ f ∈ ["ghost.txt"], f ∉ (mgrInit gitBad).git.worktree) ∧
    commitChanges cfgSafe "t1" ["ghost.txt"] "feature" "core" "d" (mgrInit gitBad) =
      { mgrInit gitBad with log :=
          [{ isPush := false, mgrBranch := none, head := "work/a", ok := false }] } :=
  ⟨⟨by decide, by decide, by decide⟩,
   commit_failure_swallowed cfgSafe "t1" ["ghost.txt"] "feature" "core" "d"
     (mgrInit gitBad) (by decide) (by decide) (by decide)⟩

/-! ## Claim C4 -/

/-- C4 (counterexample to the claim as stated): with the remote's default
branch configured as `develop`, and starting from a working copy where the
target branch `feature/t1-x` already exists and the network fetch fails,
`create_feature_branch` still returns the branch name normally — no
`BranchCreationError` is raised (the fetch and checkout failures are
swallowed by `_run_git_command`), the working copy stays on `work/a`, and
the attempted checkout was based on the hard-coded `origin/main`, not the
configured default branch `develop`. -/
theorem create_branch_failure_swallowed_cex :
    (createFeatureBranch cfgDev envNoNet "feature" "x" "t1" (mgrInit gitCollide)).1 =
      "feature/t1-x" ∧
    (createFeatureBranch cfgDev envNoNet "feature" "x" "t1"
      (mgrInit gitCollide)).2.git.head = "work/a" ∧
    (createFeatureBranch cfgDev envNoNet "feature" "x" "t1"
      (mgrInit gitCollide)).2.git.branches = ["main", "feature/t1-x"] ∧
    (createFeatureBranch cfgDev envNoNet "feature" "x" "t1"
      (mgrInit gitCollide)).2.git.checkouts = [("feature/t1-x", some "origin/main")] ∧
    (createFeatureBranch cfgDev envNoNet "feature" "x" "t1"
      (mgrInit gitCollide)).2.git.fetches = [false] ∧
    cfgDev.defaultBranch = "develop" := by
  exact ⟨by decide, by decide, by decide, by decide, by decide, by decide⟩

/-- C4 (amended): `create_feature_branch` builds the branch name from the
per-category template under `workflow_rules.branch_strategy`, falling back
to `feature/<timestamp>-<slug(description)>` when no template is configured
for the category; it always records a `git checkout -b <name> origin/main`
attempt — the base is the hard-coded `origin/main`, independent of the
configured default branch; when the checkout succeeds the branch is created
and checked out, and when it fails (e.g. name collision) the failure is
swallowed and the function still returns the branch name normally, with
`current_branch` assigned either way. -/
theorem create_feature_branch_behavior (cfg : Config) (env : Env)
    (bty d ts : String) (s : MgrState) :
    (createFeatureBranch cfg env bty d ts s).1 = mkBranchName cfg bty d ts ∧
    (createFeatureBranch cfg env bty d ts s).2.currentBranch =
      some (mkBranchName cfg bty d ts) ∧
    (createFeatureBranch cfg env bty d ts s).2.git.checkouts =
      s.git.checkouts ++ [(mkBranchName cfg bty d ts, some "origin/main")] ∧
    (mkBranchName cfg bty d ts ∈ s.git.branches →
      (createFeatureBranch cfg env bty d ts s).2.git.head = s.git.head ∧
      (createFeatureBranch cfg env bty d ts s).2.git.branches = s.git.branches) ∧
    (mkBranchName cfg bty d ts ∉ s.git.branches →
      (createFeatureBranch cfg env bty d ts s).2.git.head = mkBranchName cfg bty d ts ∧
      (createFeatureBranch cfg env bty d ts s).2.git.branches =
        s.git.branches ++ [mkBranchName cfg bty d ts]) ∧
    (List.lookup (bty ++ "_pattern") cfg.branchStrategy = none →
      (createFeatureBranch cfg env bty d ts s).1 = "feature/" ++ ts ++ "-" ++ slugify d) := by
  refine ⟨rfl, rfl, ?_, ?_, ?_, ?_⟩
  · show (gitCheckoutNew (gitFetch s.git env.fetchOk) (mkBranchName cfg bty d ts)
      (some "origin/main")).checkouts = _
    rw [gitCheckoutNew_checkouts]
    rfl
  · intro h
    exact ⟨(gitCheckoutNew_old (gitFetch s.git env.fetchOk) _ (some "origin/main") h).2,
      (gitCheckoutNew_old (gitFetch s.git env.fetchOk) _ (some "origin/main") h).1⟩
  · intro h
    exact ⟨(gitCheckoutNew_new (gitFetch s.git env.fetchOk) _ (some "origin/main") h).2,
      (gitCheckoutNew_new (gitFetch s.git env.fetchOk) _ (some "origin/main") h).1⟩
  · intro h
    rw [createFeatureBranch_fst, mkBranchName_default cfg bty d ts h]

theorem create_feature_branch_behavior_witness :
    (mkBranchName cfgSafe "feature" "x" "t1" ∉ (mgrInit gitOnMain).git.branches ∧
      List.lookup ("feature" ++ "_pattern") cfgSafe.branchStrategy = none) ∧
    (createFeatureBranch cfgSafe envA "feature" "x" "t1"
        (mgrInit gitOnMain)).2.git.head = mkBranchName cfgSafe "feature" "x" "t1" ∧
    (createFeatureBranch cfgSafe envA "feature" "x" "t1" (mgrInit gitOnMain)).1 =
      "feature/" ++ "t1" ++ "-" ++ slugify "x" :=
  ⟨⟨by decide, rfl⟩,
   ((create_feature_branch_behavior cfgSafe envA "feature" "x" "t1"
       (mgrInit gitOnMain)).2.2.2.2.1 (by decide)).1,
   (create_feature_branch_behavior cfgSafe envA "feature" "x" "t1"
       (mgrInit gitOnMain)).2.2.2.2.2 rfl⟩

/-! ## Claim C6 -/

theorem processPendingChanges_noop (s : MonState) (now : Nat)
    (h : now < s.lastProcessTime + s.processDelay) :
    processPendingChanges now s = ([], s) := by
  unfold processPendingChanges
  rw [if_pos h]

theorem processPendingChanges_elapsed (s : MonState) (now : Nat)
    (h : s.lastProcessTime + s.processDelay ≤ now) :
    processPendingChanges now s = ((flushCats s.pending).1,
      { s with pending := (flushCats s.pending).2
               lastProcessTime := now
               savedHashes := s.fileHashes }) := by
  unfold processPendingChanges
  rw [if_neg (not_lt.mpr h)]

theorem filter_cleared_nil (l : List (String × List String)) :
    (l.map (fun p => (p.1, ([] : List String)))).filter
      (fun p => !p.2.isEmpty) = [] := by
  induction l with
  | nil => rfl
  | cons p rest ih => simp [ih]

/-- C6: `process_pending_changes` is a no-op inside the quiescence window;
once the window has elapsed it emits exactly one UpdateRequest per
non-empty category — with the spec's description ("Update <path>" for a
single file, "Update <N> <category> files" otherwise) — clears every
category's pending set, stamps the flush time and persists the hash
mapping; a second call inside the new window does nothing, and any later
flush with no new events emits nothing (empty categories produce no
emission). -/
theorem flush_quiescence_and_emissions (s : MonState) (now : Nat) :
    (now < s.lastProcessTime + s.processDelay →
      processPendingChanges now s = ([], s)) ∧
    (s.lastProcessTime + s.processDelay ≤ now →
      (processPendingChanges now s).1 =
        (s.pending.filter (fun p => !p.2.isEmpty)).map
          (fun p => specUpdateRequest p.1 p.2) ∧
      (processPendingChanges now s).2.pending =
        s.pending.map (fun p => (p.1, [])) ∧
      (processPendingChanges now s).2.lastProcessTime = now ∧
      (processPendingChanges now s).2.savedHashes = s.fileHashes ∧
      (processPendingChanges now s).2.fileHashes = s.fileHashes) ∧
    (s.lastProcessTime + s.processDelay ≤ now →
      ∀ n2, n2 < now + s.processDelay →
        processPendingChanges n2 (processPendingChanges now s).2 =
          ([], (processPendingChanges now s).2)) ∧
    (s.lastProcessTime + s.processDelay ≤ now →
      ∀ n3, (processPendingChanges n3 (processPendingChanges now s).2).1 = []) := by
  refine ⟨processPendingChanges_noop s now, ?_, ?_, ?_⟩
  · intro h
    rw [processPendingChanges_elapsed s now h]
    exact ⟨flushCats_fst s.pending, flushCats_snd s.pending, rfl, rfl, rfl⟩
  · intro h n2 hn2
    rw [processPendingChanges_elapsed s now h]
    exact processPendingChanges_noop _ n2 hn2
  · intro h n3
    rw [processPendingChanges_elapsed s now h]
    by_cases hwin : n3 <
        ({ s with pending := (flushCats s.pending).2
                  lastProcessTime := now
                  savedHashes := s.fileHashes } : MonState).lastProcessTime +
          ({ s with pending := (flushCats s.pending).2
                    lastProcessTime := now
                    savedHashes := s.fileHashes } : MonState).processDelay
    · rw [processPendingChanges_noop _ n3 hwin]
    · rw [processPendingChanges_elapsed _ n3 (not_lt.mp hwin)]
      show (flushCats (flushCats s.pending).2).1 = []
      rw [flushCats_fst, flushCats_snd, filter_cleared_nil]
      rfl

/-- Monitor state for the witness: one pending feature file, two pending
config files, nothing else, 45 seconds past the last flush. -/
def monW : MonState :=
  { pending := [("feature", ["a.py"]), ("docs", []),
                ("config", ["x.yaml", "y.json"]), ("fix", [])]
    lastProcessTime := 0
    processDelay := 30
    fileHashes := [("/r/a.py", "h1")]
    savedHashes := [] }

theorem flush_quiescence_and_emissions_witness :
    monW.lastProcessTime + monW.processDelay ≤ 45 ∧
    (processPendingChanges 45 monW).1 =
      (monW.pending.filter (fun p => !p.2.isEmpty)).map
        (fun p => specUpdateRequest p.1 p.2) ∧
    (processPendingChanges 45 monW).1 =
      [{ category := "feature", files := ["a.py"], description := "Update a.py" },
       { category := "config", files := ["x.yaml", "y.json"]
         description := "Update 2 config files" }] :=
  ⟨by decide, ((flush_quiescence_and_emissions monW 45).2.1 (by decide)).1, by decide⟩

/-! ## Claim C7 -/

/-- C7: for every path matching one of the configured ignore patterns,
`on_modified` leaves both the path-to-hash mapping and the per-category
pending sets completely unchanged. -/
theorem ignored_paths_frame (fs : List (String × String)) (repoPath : String)
    (ev : Event) (s : MonState)
    (h : ∃ pat ∈ ignorePatterns, containsStr pat ev.srcPath = true) :
    (onModified fs repoPath ev s).fileHashes = s.fileHashes ∧
    (onModified fs repoPath ev s).pending = s.pending := by
  have hig : shouldIgnoreFile ev.srcPath = true := by
    rcases h with ⟨pat, hm, hc⟩
    exact List.any_eq_true.mpr ⟨pat, hm, hc⟩
  unfold onModified
  cases hD : ev.isDirectory <;> simp [hD, hig]

theorem ignored_paths_frame_witness :
    (∃ pat ∈ ignorePatterns,
      containsStr pat "/repo/__pycache__/mod.pyc" = true) ∧
    (onModified [] "/repo"
        { srcPath := "/repo/__pycache__/mod.pyc", isDirectory := false }
        (monInit [])).fileHashes = (monInit []).fileHashes ∧
    (onModified [] "/repo"
        { srcPath := "/repo/__pycache__/mod.pyc", isDirectory := false }
        (monInit [])).pending = (monInit []).pending :=
  ⟨by decide,
   (ignored_paths_frame [] "/repo"
     { srcPath := "/repo/__pycache__/mod.pyc", isDirectory := false }
     (monInit []) (by decide)).1,
   (ignored_paths_frame [] "/repo"
     { srcPath := "/repo/__pycache__/mod.pyc", isDirectory := false }
     (monInit []) (by decide)).2⟩

/-! ## Claim C8 -/

/-- C8: the classification of an accepted path is exactly the spec's
first-match-wins, case-insensitive policy: "readme"/"doc"/".md"/"license"
gives `docs`; otherwise "config"/".yaml"/".yml"/".json"/".ini" gives
`config`; otherwise ".sh"/".py"/"script" gives `feature`; every remaining
path gives `feature`. -/
theorem classification_first_match_wins (relPath : String) :
    categorizeFile relPath = specClassify relPath := by
  unfold categorizeFile specClassify
  simp only [List.any_cons, List.any_nil, Bool.or_false, Bool.or_assoc]

/-! ## Claim C9 -/

theorem afterPush_ok_noGh (cfg : Config) (env : Env) (uty : String)
    (files : List String) (d bn bty cty sc : String) (u : Unit) (s3 : MgrState)
    (hgh : env.ghAvailable = false) :
    afterPush cfg env uty files d bn bty cty sc (Except.ok u, s3) =
      (Except.ok { branch := bn, commitType := cty, prUrl := none
                   status := "failed" }, s3) := by
  unfold afterPush
  dsimp only
  rw [createPullRequest_noGh cfg env _ _ _ s3 hgh]
  rfl

/-- C9: when the hosting CLI is absent, `create_pull_request` returns no
URL and `process_update` returns a WorkflowResult with status "failed" and
no PR URL, while the branch created and the commit made earlier in the
sequence still exist in the working copy (nothing is rolled back). -/
theorem pr_failure_nonfatal (cfg : Config) (env : Env) (uty : String)
    (files : List String) (d ts : String) (s : MgrState)
    (hgh : env.ghAvailable = false)
    (hbn : mkBranchName cfg (updBranchType uty) d ts ∉ cfg.protectedBranches)
    (hnew : mkBranchName cfg (updBranchType uty) d ts ∉ s.git.branches)
    (hfile : ∃ f ∈ files, f ∈ s.git.worktree) :
    (processUpdate cfg env uty files d ts s).1 =
      Except.ok
        { branch := mkBranchName cfg (updBranchType uty) d ts
          commitType :=
            if updBranchType uty ≠ "docs" then updBranchType uty else "docs"
          prUrl := none
          status := "failed" } ∧
    mkBranchName cfg (updBranchType uty) d ts ∈
      (processUpdate cfg env uty files d ts s).2.git.branches ∧
    (processUpdate cfg env uty files d ts s).2.git.commitLog =
      s.git.commitLog ++
        [(mkBranchName cfg (updBranchType uty) d ts,
          mkCommitMessage cfg
            (if updBranchType uty ≠ "docs" then updBranchType uty else "docs")
            (determineScope files) d)] := by
  -- effects of create_feature_branch
  have hnew2 : mkBranchName cfg (updBranchType uty) d ts ∉
      (gitFetch s.git env.fetchOk).branches := hnew
  have h1 := gitCheckoutNew_new (gitFetch s.git env.fetchOk)
    (mkBranchName cfg (updBranchType uty) d ts) (some "origin/main") hnew2
  have hs1git : (createFeatureBranch cfg env (updBranchType uty) d ts s).2.git =
      gitCheckoutNew (gitFetch s.git env.fetchOk)
        (mkBranchName cfg (updBranchType uty) d ts) (some "origin/main") := rfl
  have hs1head : (createFeatureBranch cfg env (updBranchType uty) d ts s).2.git.head =
      mkBranchName cfg (updBranchType uty) d ts := by rw [hs1git]; exact h1.2
  have hs1branches :
      (createFeatureBranch cfg env (updBranchType uty) d ts s).2.git.branches =
        s.git.branches ++ [mkBranchName cfg (updBranchType uty) d ts] := by
    rw [hs1git]
    exact h1.1
  have hs1worktree :
      (createFeatureBranch cfg env (updBranchType uty) d ts s).2.git.worktree =
        s.git.worktree := by
    rw [hs1git, gitCheckoutNew_worktree]
    rfl
  have hs1commitLog :
      (createFeatureBranch cfg env (updBranchType uty) d ts s).2.git.commitLog =
        s.git.commitLog := by
    rw [hs1git, gitCheckoutNew_commitLog]
    rfl
  -- effects of commit_changes
  have hens : ensureNotOnMain cfg ts (createFeatureBranch cfg env (updBranchType uty) d ts s).2 =
      (createFeatureBranch cfg env (updBranchType uty) d ts s).2 :=
    ensureNotOnMain_safe cfg ts _ (by rw [hs1head]; exact hbn)
  have hstage : (stageAll (createFeatureBranch cfg env (updBranchType uty) d ts s).2.git
      files).staged ≠ [] := by
    refine stageAll_exists_staged_ne files _ ?_
    rcases hfile with ⟨f0, hf0, hw0⟩
    exact ⟨f0, hf0, by rw [hs1worktree]; exact hw0⟩
  have hcommit := gitCommit_ne
    (stageAll (createFeatureBranch cfg env (updBranchType uty) d ts s).2.git files)
    (mkCommitMessage cfg
      (if updBranchType uty ≠ "docs" then updBranchType uty else "docs")
      (determineScope files) d) hstage
  have e2 : commitChangesCore true cfg ts files
      (if updBranchType uty ≠ "docs" then updBranchType uty else "docs")
      (determineScope files) d
      (createFeatureBranch cfg env (updBranchType uty) d ts s).2 =
      { (createFeatureBranch cfg env (updBranchType uty) d ts s).2 with
        git := (gitCommit
          (stageAll (createFeatureBranch cfg env (updBranchType uty) d ts s).2.git files)
          (mkCommitMessage cfg
            (if updBranchType uty ≠ "docs" then updBranchType uty else "docs")
            (determineScope files) d)).1
        log := (createFeatureBranch cfg env (updBranchType uty) d ts s).2.log ++
          [{ isPush := false
             mgrBranch :=
               (createFeatureBranch cfg env (updBranchType uty) d ts s).2.currentBranch
             head := (stageAll
               (createFeatureBranch cfg env (updBranchType uty) d ts s).2.git files).head
             ok := (gitCommit
               (stageAll (createFeatureBranch cfg env (updBranchType uty) d ts s).2.git files)
               (mkCommitMessage cfg
                 (if updBranchType uty ≠ "docs" then updBranchType uty else "docs")
                 (determineScope files) d)).2 }] } := by
    unfold commitChangesCore
    dsimp only
    rw [if_pos rfl, hens]
  -- the state after the commit step
  have hs2cb : (commitChangesCore true cfg ts files
      (if updBranchType uty ≠ "docs" then updBranchType uty else "docs")
      (determineScope files) d
      (createFeatureBranch cfg env (updBranchType uty) d ts s).2).currentBranch =
      some (mkBranchName cfg (updBranchType uty) d ts) := by
    rw [commitChangesCore_currentBranch, createFeatureBranch_currentBranch]
  have hs2git : (commitChangesCore true cfg ts files
      (if updBranchType uty ≠ "docs" then updBranchType uty else "docs")
      (determineScope files) d
      (createFeatureBranch cfg env (updBranchType uty) d ts s).2).git.branches =
      s.git.branches ++ [mkBranchName cfg (updBranchType uty) d ts] := by
    rw [e2]
    show (gitCommit _ _).1.branches = _
    rw [hcommit]
    show (stageAll _ files).branches = _
    rw [stageAll_branches, hs1branches]
  have hs2cl : (commitChangesCore true cfg ts files
      (if updBranchType uty ≠ "docs" then updBranchType uty else "docs")
      (determineScope files) d
      (createFeatureBranch cfg env (updBranchType uty) d ts s).2).git.commitLog =
      s.git.commitLog ++
        [(mkBranchName cfg (updBranchType uty) d ts,
          mkCommitMessage cfg
            (if updBranchType uty ≠ "docs" then updBranchType uty else "docs")
            (determineScope files) d)] := by
    rw [e2]
    show (gitCommit _ _).1.commitLog = _
    rw [hcommit]
    show (stageAll _ files).commitLog ++ [((stageAll _ files).head, _)] = _
    rw [stageAll_commitLog, stageAll_head, hs1commitLog, hs1head]
  -- the push step succeeds
  have e3 := pushBranch_ok cfg true
    (commitChangesCore true cfg ts files
      (if updBranchType uty ≠ "docs" then updBranchType uty else "docs")
      (determineScope files) d
      (createFeatureBranch cfg env (updBranchType uty) d ts s).2)
    (mkBranchName cfg (updBranchType uty) d ts) hs2cb hbn
  -- assemble process_update
  have e0 : processUpdate cfg env uty files d ts s =
      afterPush cfg env uty files d
        (mkBranchName cfg (updBranchType uty) d ts) (updBranchType uty)
        (if updBranchType uty ≠ "docs" then updBranchType uty else "docs")
        (determineScope files)
        (pushBranch cfg true
          (commitChangesCore true cfg ts files
            (if updBranchType uty ≠ "docs" then updBranchType uty else "docs")
            (determineScope files) d
            (createFeatureBranch cfg env (updBranchType uty) d ts s).2)) := rfl
  rw [e0, e3, afterPush_ok_noGh cfg env uty files d _ _ _ _ () _ hgh]
  refine ⟨rfl, ?_, ?_⟩
  · show mkBranchName cfg (updBranchType uty) d ts ∈
      (commitChangesCore true cfg ts files _ _ d _).git.branches
    rw [hs2git]
    exact List.mem_append_right _ (List.mem_singleton.mpr rfl)
  · show (commitChangesCore true cfg ts files _ _ d _).git.commitLog = _
    exact hs2cl

/-- Working copy and invocation for the C9 witness. -/
theorem pr_failure_nonfatal_witness :
    (envNoGh.ghAvailable = false ∧
      mkBranchName cfgSafe (updBranchType "feature") "add stuff" "t1" ∉
        cfgSafe.protectedBranches ∧
      mkBranchName cfgSafe (updBranchType "feature") "add stuff" "t1" ∉
        (mgrInit gitOnMain).git.branches ∧
      ∃ f ∈ ["a.txt"], f ∈ (mgrInit gitOnMain).git.worktree) ∧
    (processUpdate cfgSafe envNoGh "feature" ["a.txt"] "add stuff" "t1"
        (mgrInit gitOnMain)).1 =
      Except.ok
        { branch := mkBranchName cfgSafe (updBranchType "feature") "add stuff" "t1"
          commitType :=
            if updBranchType "feature" ≠ "docs" then updBranchType "feature" else "docs"
          prUrl := none
          status := "failed" } :=
  ⟨⟨rfl, by decide, by decide, by decide⟩,
   (pr_failure_nonfatal cfgSafe envNoGh "feature" ["a.txt"] "add stuff" "t1"
     (mgrInit gitOnMain) rfl (by decide) (by decide) (by decide)).1⟩

end RepoManager
